import Mathlib

/-!
# Verification of the notion-todo task-list store (src/src/App.tsx)

Shallow embedding of the task-list logic of `src/src/App.tsx`:

* the `Todo` record (`interface Todo`, lines 3–8);
* the mutation closures `addTodo`, `toggleTodo`, `deleteTodo`, `saveEdit`,
  `clearCompleted` — each is embedded as a pure function from the previous
  `todos` array (plus the inputs the closure reads from component state or
  the environment) to the next `todos` array, mirroring the `setTodos`
  updater passed in the source;
* the read-only projection `filteredTodos` (lines 110–114);
* `generateId` (lines 10–12), parameterised by the clock value and by the
  base-36 fraction string that `Math.random().toString(36).substr(2)`
  produced;
* the persistence layer (lines 17–27 and 35–37): `JSON.stringify` /
  `JSON.parse` are modelled by an executable serializer and an executable
  recursive-descent parser over a `Json` value type (numbers restricted to
  integers, which covers every value the program writes: `Date.now()` is an
  integer).

JavaScript string truthiness (`if (!trimmed)`, `if (saved)`,
`if (!editingId)`) is embedded as an emptiness test, since a JS string is
falsy exactly when it is empty.
-/

/-- The task record, from `interface Todo` (src/src/App.tsx lines 3–8).
`createdAt` holds `Date.now()`, a natural number of milliseconds. -/
structure Todo where
  id : String
  text : String
  completed : Bool
  createdAt : Nat
deriving DecidableEq, Repr

/-- Model of JavaScript's `String.prototype.trim` whitespace class,
restricted to the ASCII whitespace characters that can reach this program. -/
def isJsWs (c : Char) : Bool :=
  c = ' ' || c = '\t' || c = '\n' || c = '\r' || c = '\x0b' || c = '\x0c'

/-- Model of `String.prototype.trim`: drop leading and trailing whitespace. -/
def jsTrim (s : String) : String :=
  String.mk (((s.data.dropWhile isJsWs).reverse.dropWhile isJsWs).reverse)

/-- Embedding of `addTodo` (src/src/App.tsx lines 45–60), as a function of the draft text
`newTodo`, the freshly generated id, the clock value, and the previous list.
`if (!trimmed) return` keeps the list unchanged when the trim is empty;
otherwise `setTodos(prev => [todo, ...prev])` prepends the new task. -/
def addTodo (newTodo : String) (newId : String) (now : Nat)
    (todos : List Todo) : List Todo :=
  let trimmed := jsTrim newTodo
  if trimmed = "" then todos
  else { id := newId, text := trimmed, completed := false, createdAt := now } :: todos

/-- Embedding of `toggleTodo` (src/src/App.tsx lines 62–68):
`prev.map(todo => todo.id === id ? { ...todo, completed: !todo.completed } : todo)`. -/
def toggleTodo (id : String) (todos : List Todo) : List Todo :=
  todos.map (fun todo =>
    if todo.id = id then { todo with completed := !todo.completed } else todo)

/-- Embedding of `deleteTodo` (src/src/App.tsx lines 70–72):
`prev.filter(todo => todo.id !== id)`. -/
def deleteTodo (id : String) (todos : List Todo) : List Todo :=
  todos.filter (fun todo => todo.id ≠ id)

/-- Embedding of `saveEdit` (src/src/App.tsx lines 79–91), as a function of the `editingId`
and `editText` component state and the previous list. `if (!editingId) return`
aborts when `editingId` is `null` **or the empty string** (JS falsiness);
then a non-empty trim maps the new text over every task matching the id,
and an empty trim leaves the list untouched. -/
def saveEdit (editingId : Option String) (editText : String)
    (todos : List Todo) : List Todo :=
  match editingId with
  | none => todos
  | some eid =>
    if eid = "" then todos
    else
      let trimmed := jsTrim editText
      if trimmed = "" then todos
      else todos.map (fun todo =>
        if todo.id = eid then { todo with text := trimmed } else todo)

/-- Embedding of `clearCompleted` (src/src/App.tsx lines 106–108):
`prev.filter(todo => !todo.completed)`. -/
def clearCompleted (todos : List Todo) : List Todo :=
  todos.filter (fun todo => !todo.completed)

/-- The filter selector state, `'all' | 'active' | 'completed'` (line 31). -/
inductive FilterMode where
  | all
  | active
  | completed
deriving DecidableEq, Repr

/-- Embedding of `filteredTodos` (src/src/App.tsx lines 110–114): keep the tasks the
current filter mode selects; `'all'` keeps everything. -/
def filteredTodos (filter : FilterMode) (todos : List Todo) : List Todo :=
  todos.filter (fun todo =>
    match filter with
    | .active => !todo.completed
    | .completed => todo.completed
    | .all => true)

/-- Base-36 digit characters, as produced by `Number.prototype.toString(36)`. -/
def base36Digit (d : Nat) : Char :=
  if d < 10 then Char.ofNat (48 + d) else Char.ofNat (87 + d)

/-- Base-36 digit characters of `n`, most-significant first; the fuel
argument bounds the number of digits (`n` itself is always enough). -/
def natToBase36Aux : Nat → Nat → List Char
  | 0, _ => []
  | fuel + 1, n =>
    if n = 0 then []
    else natToBase36Aux fuel (n / 36) ++ [base36Digit (n % 36)]

/-- Rendering `n.toString(36)` for a natural number: most-significant digit first. -/
def natToBase36 (n : Nat) : String :=
  if n = 0 then "0" else String.mk (natToBase36Aux n n)

/-- Embedding of `generateId` (src/src/App.tsx lines 10–12):
`Date.now().toString(36) + Math.random().toString(36).substr(2)`.
The clock value is the parameter `now`; the random fraction's base-36 digit
string (what remains of `Math.random().toString(36)` after `substr(2)` strips
the leading `"0."`) is the parameter `rand`. -/
def generateId (now : Nat) (rand : String) : String :=
  natToBase36 now ++ rand

/-! ## The persistence layer

`JSON.stringify` / `JSON.parse` (src/src/App.tsx lines 18–27 and 35–37) are
modelled executably.  JSON numbers are restricted to integers — every number
this program ever writes is a `Date.now()` value — and the parser accepts
the whitespace-free integer-JSON fragment, which includes every string the
serializer produces. -/

/-- JSON values (numbers restricted to integers). -/
inductive Json where
  | null : Json
  | bool : Bool → Json
  | num : Int → Json
  | str : String → Json
  | arr : List Json → Json
  | obj : List (String × Json) → Json
deriving Repr

/-- Lowercase hexadecimal digit characters, as in `JSON.stringify`'s
`\u00XX` escapes. -/
def hexDigitChar (d : Nat) : Char :=
  if d < 10 then Char.ofNat (48 + d) else Char.ofNat (87 + d)

/-- Escaping of one character inside a string literal, as `JSON.stringify` does it:
quote and backslash get a backslash escape, the named control characters get
their short escapes, other control characters get `\u00XX`, and everything
else is emitted verbatim. -/
def escapeChar (c : Char) : List Char :=
  if c = '"' then ['\\', '"']
  else if c = '\\' then ['\\', '\\']
  else if c = '\x08' then ['\\', 'b']
  else if c = '\x09' then ['\\', 't']
  else if c = '\x0a' then ['\\', 'n']
  else if c = '\x0c' then ['\\', 'f']
  else if c = '\x0d' then ['\\', 'r']
  else if c.toNat < 32 then
    ['\\', 'u', '0', '0', hexDigitChar (c.toNat / 16), hexDigitChar (c.toNat % 16)]
  else [c]

/-- Escape every character of a string body. -/
def escapeString : List Char → List Char
  | [] => []
  | c :: cs => escapeChar c ++ escapeString cs

/-- A decimal digit character. -/
def decDigitChar (d : Nat) : Char := Char.ofNat (48 + d)

/-- Decimal digits of `n`, most-significant first; the fuel argument bounds
the number of digits (`n` itself is always enough). -/
def natDecDigits : Nat → Nat → List Char
  | 0, _ => []
  | fuel + 1, n =>
    if n = 0 then []
    else natDecDigits fuel (n / 10) ++ [decDigitChar (n % 10)]

/-- Rendering of a natural number, as `JSON.stringify` emits it. -/
def encodeNat (n : Nat) : List Char :=
  if n = 0 then ['0'] else natDecDigits n n

/-- Rendering of a string value as a quoted, escaped literal, as `JSON.stringify` emits it. -/
def encodeStrVal (s : String) : List Char :=
  '"' :: escapeString s.data ++ ['"']

/-- Rendering of one `Todo`, as `JSON.stringify` emits it, with the object keys in the insertion
order of the literal at src/src/App.tsx lines 50–55:
`{"id":…,"text":…,"completed":…,"createdAt":…}`. -/
def encodeTodo (t : Todo) : List Char :=
  '{' :: '"' :: 'i' :: 'd' :: '"' :: ':' :: encodeStrVal t.id ++
  ',' :: '"' :: 't' :: 'e' :: 'x' :: 't' :: '"' :: ':' :: encodeStrVal t.text ++
  ',' :: '"' :: 'c' :: 'o' :: 'm' :: 'p' :: 'l' :: 'e' :: 't' :: 'e' :: 'd' :: '"' :: ':' ::
    (if t.completed then ['t', 'r', 'u', 'e'] else ['f', 'a', 'l', 's', 'e']) ++
  ',' :: '"' :: 'c' :: 'r' :: 'e' :: 'a' :: 't' :: 'e' :: 'd' :: 'A' :: 't' :: '"' :: ':' ::
    encodeNat t.createdAt ++ ['}']

/-- The comma-separated todos after the first array element. -/
def encodeTodosTail : List Todo → List Char
  | [] => []
  | t :: ts => ',' :: encodeTodo t ++ encodeTodosTail ts

/-- Rendering of the whole `todos` array, as `JSON.stringify` emits it. -/
def encodeTodos : List Todo → List Char
  | [] => ['[', ']']
  | t :: ts => '[' :: encodeTodo t ++ encodeTodosTail ts ++ [']']

/-- Embedding of `save`, the persistence effect at src/src/App.tsx lines 35–37,
`localStorage.setItem(STORAGE_KEY, JSON.stringify(todos))`, as the string
written for a given collection. -/
def save (todos : List Todo) : String :=
  String.mk (encodeTodos todos)

/-- The JSON value of one `Todo`, as `JSON.parse` recovers it. -/
def todoToJson (t : Todo) : Json :=
  .obj [("id", .str t.id), ("text", .str t.text),
        ("completed", .bool t.completed), ("createdAt", .num (t.createdAt : Int))]

/-- The JSON value of the whole collection. -/
def todosToJson (todos : List Todo) : Json :=
  .arr (todos.map todoToJson)

/-- Value of a hexadecimal digit character, or `none`. -/
def hexVal (c : Char) : Option Nat :=
  if '0' ≤ c ∧ c ≤ '9' then some (c.toNat - 48)
  else if 'a' ≤ c ∧ c ≤ 'f' then some (c.toNat - 87)
  else if 'A' ≤ c ∧ c ≤ 'F' then some (c.toNat - 55)
  else none

/-- Read four hexadecimal digits (a `\uXXXX` escape's payload). -/
def parseHex4 : List Char → Option (Nat × List Char)
  | a :: b :: c :: d :: rest =>
    match hexVal a, hexVal b, hexVal c, hexVal d with
    | some x, some y, some z, some w => some (((x * 16 + y) * 16 + z) * 16 + w, rest)
    | _, _, _, _ => none
  | _ => none

/-- The character a short escape `\c` stands for, or `none`. -/
def unescapeChar (c : Char) : Option Char :=
  if c = '"' then some '"'
  else if c = '\\' then some '\\'
  else if c = '/' then some '/'
  else if c = 'b' then some '\x08'
  else if c = 't' then some '\x09'
  else if c = 'n' then some '\x0a'
  else if c = 'f' then some '\x0c'
  else if c = 'r' then some '\x0d'
  else none

/-- Parse the body of a string literal up to its closing quote, undoing the
escapes.  One unit of fuel is spent per decoded character. -/
def parseStringBody : Nat → List Char → Option (List Char × List Char)
  | 0, _ => none
  | _ + 1, [] => none
  | fuel + 1, c :: rest =>
    if c = '"' then some ([], rest)
    else if c = '\\' then
      match rest with
      | [] => none
      | e :: rest1 =>
        if e = 'u' then
          match parseHex4 rest1 with
          | some (n, rest2) =>
            match parseStringBody fuel rest2 with
            | some (s, r) => some (Char.ofNat n :: s, r)
            | none => none
          | none => none
        else
          match unescapeChar e with
          | some c1 =>
            match parseStringBody fuel rest1 with
            | some (s, r) => some (c1 :: s, r)
            | none => none
          | none => none
    else
      match parseStringBody fuel rest with
      | some (s, r) => some (c :: s, r)
      | none => none

/-- Parse a string literal body; the input length bounds the fuel needed. -/
def parseString (l : List Char) : Option (List Char × List Char) :=
  parseStringBody (l.length + 1) l

/-- Consume leading decimal digits, accumulating their value. -/
def parseDigitsAux : List Char → Nat → Nat × List Char
  | [], acc => (acc, [])
  | c :: rest, acc =>
    if c.isDigit then parseDigitsAux rest (acc * 10 + (c.toNat - 48))
    else (acc, c :: rest)

/-- Does the input start with a decimal digit? -/
def headIsDigit : List Char → Bool
  | [] => false
  | c :: _ => c.isDigit

/-- Parse the comma-separated elements of a non-empty array up to `]`,
given a parser for one value.  One unit of fuel is spent per element. -/
def parseElemsF (pv : List Char → Option (Json × List Char)) :
    Nat → List Char → Option (List Json × List Char)
  | 0, _ => none
  | fuel + 1, l =>
    match pv l with
    | none => none
    | some (j, rest) =>
      match rest with
      | ',' :: r =>
        match parseElemsF pv fuel r with
        | some (xs, r1) => some (j :: xs, r1)
        | none => none
      | ']' :: r => some ([j], r)
      | _ => none

/-- Parse the members of a non-empty object up to `}`, given a parser for
one value.  One unit of fuel is spent per member. -/
def parseMembersF (pv : List Char → Option (Json × List Char)) :
    Nat → List Char → Option (List (String × Json) × List Char)
  | 0, _ => none
  | fuel + 1, l =>
    match l with
    | '"' :: rest =>
      match parseString rest with
      | some (k, r1) =>
        match r1 with
        | ':' :: r2 =>
          match pv r2 with
          | some (v, r3) =>
            match r3 with
            | ',' :: r4 =>
              match parseMembersF pv fuel r4 with
              | some (ms, r5) => some ((String.mk k, v) :: ms, r5)
              | none => none
            | '}' :: r4 => some ([(String.mk k, v)], r4)
            | _ => none
          | none => none
        | _ => none
      | none => none
    | _ => none

/-- Recursive-descent parser for one JSON value (whitespace-free
integer-JSON fragment).  The fuel bounds the combined nesting depth and
container length; the input length is always enough. -/
def parseVal : Nat → List Char → Option (Json × List Char)
  | 0, _ => none
  | _ + 1, [] => none
  | fuel + 1, c :: rest =>
    if c = 'n' then
      match rest with
      | 'u' :: 'l' :: 'l' :: r => some (.null, r)
      | _ => none
    else if c = 't' then
      match rest with
      | 'r' :: 'u' :: 'e' :: r => some (.bool true, r)
      | _ => none
    else if c = 'f' then
      match rest with
      | 'a' :: 'l' :: 's' :: 'e' :: r => some (.bool false, r)
      | _ => none
    else if c = '"' then
      match parseString rest with
      | some (s, r) => some (.str (String.mk s), r)
      | none => none
    else if c = '-' then
      if headIsDigit rest then
        match parseDigitsAux rest 0 with
        | (n, r) => some (.num (-(n : Int)), r)
      else none
    else if c = '[' then
      match rest with
      | ']' :: r => some (.arr [], r)
      | _ =>
        match parseElemsF (parseVal fuel) fuel rest with
        | some (xs, r) => some (.arr xs, r)
        | none => none
    else if c = '{' then
      match rest with
      | '}' :: r => some (.obj [], r)
      | _ =>
        match parseMembersF (parseVal fuel) fuel rest with
        | some (ms, r) => some (.obj ms, r)
        | none => none
    else if c.isDigit then
      match parseDigitsAux (c :: rest) 0 with
      | (n, r) => some (.num (n : Int), r)
    else none

/-- Embedding of `JSON.parse`: parse a whole string as one JSON value, requiring the
entire input to be consumed; `none` models a thrown `SyntaxError`. -/
def jsonParse (s : String) : Option Json :=
  match parseVal (s.data.length + 1) s.data with
  | some (j, []) => some j
  | _ => none

/-- Embedding of `load`, the `useState` initializer at src/src/App.tsx lines 17–27.
`localStorage.getItem` yields `null` (modelled `none`) or a string;
`if (saved)` skips empty strings (JS falsiness); `JSON.parse` failure is
caught and replaced by `[]`; a successful parse is returned **unvalidated**. -/
def load (saved : Option String) : Json :=
  match saved with
  | none => Json.arr []
  | some s =>
    if s = "" then Json.arr []
    else
      match jsonParse s with
      | some j => j
      | none => Json.arr []

/-- Read one `Todo` back out of its JSON value (the exact shape the
serializer produces). -/
def jsonToTodo : Json → Option Todo
  | .obj [("id", .str i), ("text", .str x),
          ("completed", .bool c), ("createdAt", .num (Int.ofNat n))] =>
    some { id := i, text := x, completed := c, createdAt := n }
  | _ => none

/-- Read a whole task collection back out of a list of JSON values. -/
def jsonToTodoList : List Json → Option (List Todo)
  | [] => some []
  | j :: js =>
    match jsonToTodo j, jsonToTodoList js with
    | some t, some ts => some (t :: ts)
    | _, _ => none

/-- Read a whole task collection back out of a JSON value. -/
def jsonToTodos : Json → Option (List Todo)
  | .arr xs => jsonToTodoList xs
  | _ => none

/-! ## Shared helper lemmas -/

/-- Mapping a function that fixes every element of a list is the identity. -/
theorem list_map_eq_self {α : Type} (f : α → α) (l : List α)
    (h : ∀ a ∈ l, f a = a) : l.map f = l := by
  conv_rhs => rw [← List.map_id l]
  exact List.map_congr_left h

/-- An element the filter predicate rejects has count zero in the filtered
list. -/
theorem count_filter_of_neg {α : Type} [DecidableEq α] (p : α → Bool)
    (l : List α) (a : α) (h : p a = false) : (l.filter p).count a = 0 := by
  refine List.count_eq_zero.mpr fun hm => ?_
  have := (List.mem_filter.mp hm).2
  rw [h] at this
  cases this

/-! ## The claims -/

/-- C1: `add` with a string whose trim is empty leaves the collection
unchanged; `add` with a string whose trim is non-empty prepends exactly one
new task carrying the trimmed text, `completed := false`, the fresh id and
the current timestamp, and the old tasks follow unmodified. -/
theorem addTodo_spec (s newId : String) (now : Nat) (todos : List Todo) :
    (jsTrim s = "" → addTodo s newId now todos = todos) ∧
    (jsTrim s ≠ "" → addTodo s newId now todos =
      { id := newId, text := jsTrim s, completed := false, createdAt := now } :: todos) := by
  refine ⟨fun h => ?_, fun h => ?_⟩ <;> simp [addTodo, h]

/-- Witness for C1: `add("")` on a one-task list is a no-op, and
`add(" x ")` prepends the task with text `"x"`. -/
theorem addTodo_spec_witness :
    (jsTrim "" = "" ∧
      addTodo "" "i0" 3 [{ id := "a", text := "t", completed := true, createdAt := 1 }] =
        [{ id := "a", text := "t", completed := true, createdAt := 1 }]) ∧
    (jsTrim " x " ≠ "" ∧
      addTodo " x " "i1" 5 [{ id := "a", text := "t", completed := true, createdAt := 1 }] =
        [{ id := "i1", text := "x", completed := false, createdAt := 5 },
         { id := "a", text := "t", completed := true, createdAt := 1 }]) := by
  refine ⟨⟨by decide, (addTodo_spec "" "i0" 3 _).1 (by decide)⟩, ⟨by decide, ?_⟩⟩
  have h := (addTodo_spec " x " "i1" 5
    [{ id := "a", text := "t", completed := true, createdAt := 1 }]).2 (by decide)
  rw [h]; decide

/-- C3: `clearCompleted` keeps an order-preserving sub-sequence of the
original tasks, no completed task survives, and every non-completed task
survives with its exact multiplicity (hence unmodified in all fields). -/
theorem clearCompleted_spec (todos : List Todo) :
    (clearCompleted todos).Sublist todos ∧
    (∀ t : Todo, t.completed = true → t ∉ clearCompleted todos) ∧
    (∀ t : Todo, t.completed = false →
      (clearCompleted todos).count t = todos.count t) := by
  refine ⟨List.filter_sublist _, fun t ht hm => ?_, fun t ht => ?_⟩
  · have := (List.mem_filter.mp hm).2
    rw [ht] at this
    cases this
  · exact List.count_filter (by simp [ht])

/-- Witness for C3 on a two-task list with one completed task. -/
theorem clearCompleted_spec_witness :
    ((⟨"a", "x", true, 0⟩ : Todo).completed = true ∧
      (⟨"a", "x", true, 0⟩ : Todo) ∉ clearCompleted [⟨"a", "x", true, 0⟩, ⟨"b", "y", false, 1⟩]) ∧
    ((⟨"b", "y", false, 1⟩ : Todo).completed = false ∧
      (clearCompleted [⟨"a", "x", true, 0⟩, ⟨"b", "y", false, 1⟩]).count ⟨"b", "y", false, 1⟩ =
        ([⟨"a", "x", true, 0⟩, ⟨"b", "y", false, 1⟩] : List Todo).count ⟨"b", "y", false, 1⟩) :=
  ⟨⟨rfl, (clearCompleted_spec _).2.1 _ rfl⟩, ⟨rfl, (clearCompleted_spec _).2.2 _ rfl⟩⟩

/-- C4: `filter("all")` returns the whole collection; `filter("active")` and
`filter("completed")` are order-preserving sub-sequences, they are disjoint,
and together they carry exactly the multiset of the full collection. -/
theorem filteredTodos_spec (todos : List Todo) :
    filteredTodos .all todos = todos ∧
    (filteredTodos .active todos).Sublist todos ∧
    (filteredTodos .completed todos).Sublist todos ∧
    (∀ t : Todo, t ∈ filteredTodos .active todos → t ∉ filteredTodos .completed todos) ∧
    (∀ t : Todo, (filteredTodos .active todos).count t +
      (filteredTodos .completed todos).count t = todos.count t) := by
  refine ⟨?_, List.filter_sublist _, List.filter_sublist _, fun t hta htc => ?_, fun t => ?_⟩
  · simp [filteredTodos]
  · have h1 := (List.mem_filter.mp hta).2
    have h2 := (List.mem_filter.mp htc).2
    simp only [Bool.not_eq_true'] at h1
    rw [h1] at h2
    cases h2
  · have hact : filteredTodos .active todos = todos.filter (fun u => !u.completed) := rfl
    have hcom : filteredTodos .completed todos = todos.filter (fun u => u.completed) := rfl
    rw [hact, hcom]
    by_cases h : t.completed
    · rw [count_filter_of_neg _ _ _ (by simp [h]), List.count_filter (by simp [h])]
      omega
    · rw [List.count_filter (by simp [h]), count_filter_of_neg _ _ _ (by simp [h])]
      omega

/-- Witness for C4 on a two-task list: an active task is in the active
projection only, and the counts add up. -/
theorem filteredTodos_spec_witness :
    (⟨"b", "y", false, 1⟩ : Todo) ∈ filteredTodos .active [⟨"a", "x", true, 0⟩, ⟨"b", "y", false, 1⟩] ∧
    (⟨"b", "y", false, 1⟩ : Todo) ∉ filteredTodos .completed [⟨"a", "x", true, 0⟩, ⟨"b", "y", false, 1⟩] ∧
    (filteredTodos .active [⟨"a", "x", true, 0⟩, ⟨"b", "y", false, 1⟩]).count ⟨"b", "y", false, 1⟩ +
      (filteredTodos .completed [⟨"a", "x", true, 0⟩, ⟨"b", "y", false, 1⟩]).count ⟨"b", "y", false, 1⟩ =
      ([⟨"a", "x", true, 0⟩, ⟨"b", "y", false, 1⟩] : List Todo).count ⟨"b", "y", false, 1⟩ :=
  ⟨by decide,
   (filteredTodos_spec [⟨"a", "x", true, 0⟩, ⟨"b", "y", false, 1⟩]).2.2.2.1 _ (by decide),
   (filteredTodos_spec [⟨"a", "x", true, 0⟩, ⟨"b", "y", false, 1⟩]).2.2.2.2 _⟩

/-- C7: toggling the same id twice restores the collection exactly, and a
single toggle flips precisely the `completed` flag of the matching tasks,
position by position, leaving everything else unchanged. -/
theorem toggleTodo_spec (id : String) (todos : List Todo) :
    toggleTodo id (toggleTodo id todos) = todos ∧
    (∀ i : Nat, (toggleTodo id todos)[i]? =
      (todos[i]?).map (fun t =>
        if t.id = id then { t with completed := !t.completed } else t)) := by
  constructor
  · have hpt : ∀ t : Todo,
        (fun u : Todo => if u.id = id then { u with completed := !u.completed } else u)
          ((fun u : Todo => if u.id = id then { u with completed := !u.completed } else u) t) = t := by
      intro t
      obtain ⟨i, x, c, d⟩ := t
      by_cases h : i = id
      · subst h; simp
      · simp [show (⟨i, x, c, d⟩ : Todo).id = i from rfl, h]
    simp only [toggleTodo, List.map_map]
    exact list_map_eq_self _ _ (fun t _ => hpt t)
  · intro i
    simp [toggleTodo, List.getElem?_map]

/-- Witness for C7: toggling twice on a concrete two-task list restores it,
and one toggle flips the matching task at position 0. -/
theorem toggleTodo_spec_witness :
    toggleTodo "a" (toggleTodo "a" [⟨"a", "x", true, 0⟩, ⟨"b", "y", false, 1⟩]) =
      [⟨"a", "x", true, 0⟩, ⟨"b", "y", false, 1⟩] ∧
    (toggleTodo "a" [⟨"a", "x", true, 0⟩, ⟨"b", "y", false, 1⟩])[0]? =
      some ⟨"a", "x", false, 0⟩ := by
  refine ⟨(toggleTodo_spec "a" _).1, ?_⟩
  rw [(toggleTodo_spec "a" [⟨"a", "x", true, 0⟩, ⟨"b", "y", false, 1⟩]).2 0]
  decide

/-- C8: `toggle`, `remove` and `edit` with an id matching no task are
no-ops, and `remove` is idempotent. -/
theorem mutations_absent_id_spec (id : String) (todos : List Todo) :
    ((∀ t ∈ todos, t.id ≠ id) →
      toggleTodo id todos = todos ∧ deleteTodo id todos = todos ∧
      (∀ s, saveEdit (some id) s todos = todos)) ∧
    deleteTodo id (deleteTodo id todos) = deleteTodo id todos := by
  constructor
  · intro h
    refine ⟨?_, ?_, fun s => ?_⟩
    · exact list_map_eq_self _ _ (fun t ht => by simp [h t ht])
    · exact List.filter_eq_self.mpr (fun t ht => by simp [h t ht])
    · by_cases he : id = ""
      · simp [saveEdit, he]
      · by_cases htr : jsTrim s = ""
        · simp [saveEdit, he, htr]
        · simp only [saveEdit, he, htr, if_neg]
          exact list_map_eq_self _ _ (fun t ht => by simp [h t ht])
  · simp only [deleteTodo, List.filter_filter, Bool.and_self]

/-- Witness for C8: on a one-task list whose task has id `"a"`, the three
mutations with the unknown id `"z"` are no-ops, and a second `remove` of
`"a"` after the first changes nothing. -/
theorem mutations_absent_id_spec_witness :
    (∀ t ∈ [(⟨"a", "x", true, 0⟩ : Todo)], t.id ≠ "z") ∧
    (toggleTodo "z" [⟨"a", "x", true, 0⟩] = [⟨"a", "x", true, 0⟩] ∧
      deleteTodo "z" [⟨"a", "x", true, 0⟩] = [⟨"a", "x", true, 0⟩] ∧
      (∀ s, saveEdit (some "z") s [⟨"a", "x", true, 0⟩] = [⟨"a", "x", true, 0⟩])) ∧
    deleteTodo "a" (deleteTodo "a" [⟨"a", "x", true, 0⟩]) = deleteTodo "a" [⟨"a", "x", true, 0⟩] :=
  ⟨by decide,
   (mutations_absent_id_spec "z" [⟨"a", "x", true, 0⟩]).1 (by decide),
   (mutations_absent_id_spec "a" [⟨"a", "x", true, 0⟩]).2⟩

/-- C9 counterexample: two distinct (timestamp, random-suffix) pairs — the
call at millisecond 1 drawing suffix `"23"` and the call at millisecond 38
drawing suffix `"3"` — produce the identical id `"123"`, so id generation
does not guarantee uniqueness over all timestamps and draws. -/
theorem generateId_collision :
    generateId 1 "23" = generateId 38 "3" ∧
    ¬ ((1 : Nat) = 38 ∧ ("23" : String) = "3") := by
  constructor
  · decide
  · intro h
    cases h.1

/-- C9 (amended): ids generated at the same timestamp from distinct random
suffixes are distinct (the random component alone separates calls within
one millisecond; across different timestamps uniqueness is not guaranteed). -/
theorem generateId_same_time_injective (now : Nat) (r1 r2 : String)
    (h : r1 ≠ r2) : generateId now r1 ≠ generateId now r2 := by
  intro heq
  apply h
  have hd : (natToBase36 now).data ++ r1.data = (natToBase36 now).data ++ r2.data := by
    have hc := congrArg String.data heq
    simpa [generateId] using hc
  have hr := List.append_cancel_left hd
  cases r1; cases r2
  exact congrArg String.mk hr

/-- Witness for the amended C9 at timestamp 7 with suffixes `"a"`, `"b"`. -/
theorem generateId_same_time_injective_witness :
    ("a" : String) ≠ "b" ∧ generateId 7 "a" ≠ generateId 7 "b" :=
  ⟨by decide, generateId_same_time_injective 7 "a" "b" (by decide)⟩

/-- C10: with duplicate ids in the collection, `toggle` flips the
`completed` flag of every matching task (position by position), and
`remove` removes every matching task while keeping non-matching tasks with
their exact multiplicity. -/
theorem duplicate_ids_all_matches_spec (id : String) (todos : List Todo) :
    (∀ i : Nat, (toggleTodo id todos)[i]? =
      (todos[i]?).map (fun t =>
        if t.id = id then { t with completed := !t.completed } else t)) ∧
    (∀ t : Todo, t.id = id → t ∉ deleteTodo id todos) ∧
    (∀ t : Todo, t.id ≠ id → (deleteTodo id todos).count t = todos.count t) := by
  refine ⟨fun i => ?_, fun t ht hm => ?_, fun t ht => ?_⟩
  · simp [toggleTodo, List.getElem?_map]
  · have := (List.mem_filter.mp hm).2
    simp [ht] at this
  · exact List.count_filter (by simp [ht])

/-- Witness for C10 on a list with two tasks sharing id `"a"`: toggle flips
both (positions 0 and 1), and remove deletes both while the task with id
`"b"` keeps its multiplicity. -/
theorem duplicate_ids_all_matches_spec_witness :
    (toggleTodo "a" [⟨"a", "x", false, 0⟩, ⟨"a", "y", true, 1⟩, ⟨"b", "z", false, 2⟩])[0]? =
      some ⟨"a", "x", true, 0⟩ ∧
    (toggleTodo "a" [⟨"a", "x", false, 0⟩, ⟨"a", "y", true, 1⟩, ⟨"b", "z", false, 2⟩])[1]? =
      some ⟨"a", "y", false, 1⟩ ∧
    ((⟨"a", "x", false, 0⟩ : Todo).id = "a" ∧
      (⟨"a", "x", false, 0⟩ : Todo) ∉
        deleteTodo "a" [⟨"a", "x", false, 0⟩, ⟨"a", "y", true, 1⟩, ⟨"b", "z", false, 2⟩]) ∧
    ((⟨"b", "z", false, 2⟩ : Todo).id ≠ "a" ∧
      (deleteTodo "a" [⟨"a", "x", false, 0⟩, ⟨"a", "y", true, 1⟩, ⟨"b", "z", false, 2⟩]).count
          ⟨"b", "z", false, 2⟩ =
        ([⟨"a", "x", false, 0⟩, ⟨"a", "y", true, 1⟩, ⟨"b", "z", false, 2⟩] : List Todo).count
          ⟨"b", "z", false, 2⟩) := by
  refine ⟨?_, ?_,
    ⟨rfl, (duplicate_ids_all_matches_spec "a" _).2.1 _ rfl⟩,
    ⟨by decide, (duplicate_ids_all_matches_spec "a" _).2.2 _ (by decide)⟩⟩
  · rw [(duplicate_ids_all_matches_spec "a"
      [⟨"a", "x", false, 0⟩, ⟨"a", "y", true, 1⟩, ⟨"b", "z", false, 2⟩]).1 0]
    decide
  · rw [(duplicate_ids_all_matches_spec "a"
      [⟨"a", "x", false, 0⟩, ⟨"a", "y", true, 1⟩, ⟨"b", "z", false, 2⟩]).1 1]
    decide

/-- C2 counterexample: a task with the empty-string id is present, the edit
text `" y "` trims to the non-empty `"y"`, yet `saveEdit` leaves the prior
text `"old"` in place, because `if (!editingId) return` treats the empty
string id as absent (JS falsiness). -/
theorem saveEdit_empty_id_counterexample :
    saveEdit (some "") " y " [{ id := "", text := "old", completed := false, createdAt := 0 }] =
      [{ id := "", text := "old", completed := false, createdAt := 0 }] ∧
    jsTrim " y " = "y" ∧ ("old" : String) ≠ "y" := by decide

/-- C2 (amended): for a task id that is not the empty string, `edit` with an
empty-trim text leaves the collection unchanged, and `edit` with a
non-empty-trim text replaces, position by position, the text of exactly the
tasks carrying that id (the unique such task under the id-uniqueness
invariant) with the trimmed string, leaving all other fields and tasks
unchanged. -/
theorem saveEdit_spec (eid s : String) (todos : List Todo) (hne : eid ≠ "") :
    (jsTrim s = "" → saveEdit (some eid) s todos = todos) ∧
    (jsTrim s ≠ "" → ∀ i : Nat, (saveEdit (some eid) s todos)[i]? =
      (todos[i]?).map (fun t =>
        if t.id = eid then { t with text := jsTrim s } else t)) := by
  refine ⟨fun h => ?_, fun h i => ?_⟩ <;>
    simp [saveEdit, hne, h, List.getElem?_map]

/-- Witness for the amended C2: `edit("a", " y ")` sets the text of the task
with id `"a"` to `"y"`, and `edit("a", "  ")` is a no-op. -/
theorem saveEdit_spec_witness :
    ("a" : String) ≠ "" ∧
    (jsTrim "  " = "" ∧
      saveEdit (some "a") "  " [{ id := "a", text := "old", completed := false, createdAt := 0 }] =
        [{ id := "a", text := "old", completed := false, createdAt := 0 }]) ∧
    (jsTrim " y " ≠ "" ∧
      (saveEdit (some "a") " y "
        [{ id := "a", text := "old", completed := false, createdAt := 0 }])[0]? =
        some { id := "a", text := "y", completed := false, createdAt := 0 }) := by
  refine ⟨by decide,
    ⟨by decide, (saveEdit_spec "a" "  " _ (by decide)).1 (by decide)⟩,
    ⟨by decide, ?_⟩⟩
  rw [(saveEdit_spec "a" " y "
    [{ id := "a", text := "old", completed := false, createdAt := 0 }] (by decide)).2 (by decide) 0]
  decide

/-! ## Round-trip lemmas: strings and numbers -/

theorem decDigitChar_facts : ∀ d, d < 10 →
    (decDigitChar d).isDigit = true ∧ (decDigitChar d).toNat = 48 + d := by decide

theorem hexVal_hexDigitChar : ∀ d, d < 16 → hexVal (hexDigitChar d) = some d := by decide

theorem parseHex4_two_zeros (d1 d2 : Nat) (h1 : d1 < 16) (h2 : d2 < 16) (r : List Char) :
    parseHex4 ('0' :: '0' :: hexDigitChar d1 :: hexDigitChar d2 :: r) =
      some (d1 * 16 + d2, r) := by
  have h0 : hexVal '0' = some 0 := rfl
  have hz := hexVal_hexDigitChar d1 h1
  have hw := hexVal_hexDigitChar d2 h2
  simp [parseHex4, h0, hz, hw]

theorem parseStringBody_escapeChar (c : Char) (s1 tail rest : List Char) (fuel : Nat)
    (ih : parseStringBody fuel tail = some (s1, rest)) :
    parseStringBody (fuel + 1) (escapeChar c ++ tail) = some (c :: s1, rest) := by
  by_cases h1 : c = '"'
  · subst h1; simp [escapeChar, parseStringBody, unescapeChar, ih]
  · by_cases h2 : c = '\\'
    · subst h2; simp [escapeChar, parseStringBody, unescapeChar, ih]
    · by_cases h3 : c = '\x08'
      · subst h3; simp [escapeChar, parseStringBody, unescapeChar, ih]
      · by_cases h4 : c = '\x09'
        · subst h4; simp [escapeChar, parseStringBody, unescapeChar, ih]
        · by_cases h5 : c = '\x0a'
          · subst h5; simp [escapeChar, parseStringBody, unescapeChar, ih]
          · by_cases h6 : c = '\x0c'
            · subst h6; simp [escapeChar, parseStringBody, unescapeChar, ih]
            · by_cases h7 : c = '\x0d'
              · subst h7; simp [escapeChar, parseStringBody, unescapeChar, ih]
              · by_cases h8 : c.toNat < 32
                · have h9 : escapeChar c =
                      ['\\', 'u', '0', '0', hexDigitChar (c.toNat / 16),
                        hexDigitChar (c.toNat % 16)] := by
                    simp [escapeChar, h1, h2, h3, h4, h5, h6, h7, h8]
                  have hph := parseHex4_two_zeros (c.toNat / 16) (c.toNat % 16)
                    (by omega) (by omega) tail
                  have hv : c.toNat / 16 * 16 + c.toNat % 16 = c.toNat := by omega
                  rw [h9]
                  simp [parseStringBody, hph, ih, hv, Char.ofNat_toNat]
                · have h9 : escapeChar c = [c] := by
                    simp [escapeChar, h1, h2, h3, h4, h5, h6, h7, h8]
                  rw [h9]
                  simp [parseStringBody, h1, h2, ih]

theorem parseStringBody_escapeString (s : List Char) : ∀ (fuel : Nat) (rest : List Char),
    s.length + 1 ≤ fuel →
    parseStringBody fuel (escapeString s ++ '"' :: rest) = some (s, rest) := by
  induction s with
  | nil =>
    intro fuel rest h
    obtain ⟨f, rfl⟩ : ∃ f, fuel = f + 1 := ⟨fuel - 1, by omega⟩
    simp [escapeString, parseStringBody]
  | cons c cs ih =>
    intro fuel rest h
    obtain ⟨f, rfl⟩ : ∃ f, fuel = f + 1 := ⟨fuel - 1, by omega⟩
    have hih := ih f rest (by simp at h ⊢; omega)
    rw [escapeString, List.append_assoc]
    exact parseStringBody_escapeChar c cs _ rest f hih

theorem escapeChar_length_pos (c : Char) : 1 ≤ (escapeChar c).length := by
  unfold escapeChar
  repeat' split
  all_goals simp

theorem escapeString_length (s : List Char) : s.length ≤ (escapeString s).length := by
  induction s with
  | nil => simp [escapeString]
  | cons c cs ih =>
    have h1 := escapeChar_length_pos c
    simp only [escapeString, List.length_append, List.length_cons]
    omega

theorem parseString_escapeString (s rest : List Char) :
    parseString (escapeString s ++ '"' :: rest) = some (s, rest) := by
  have hlen := escapeString_length s
  unfold parseString
  apply parseStringBody_escapeString
  simp [List.length_append]
  omega

theorem parseDigitsAux_stop (rest : List Char) (acc : Nat) (h : headIsDigit rest = false) :
    parseDigitsAux rest acc = (acc, rest) := by
  cases rest with
  | nil => rfl
  | cons c r =>
    simp only [headIsDigit] at h
    simp [parseDigitsAux, h]

theorem natDecDigits_chunk : ∀ (fuel n acc : Nat) (rest : List Char), n ≤ fuel →
    parseDigitsAux (natDecDigits fuel n ++ rest) acc =
      parseDigitsAux rest (acc * 10 ^ (natDecDigits fuel n).length + n) := by
  intro fuel
  induction fuel with
  | zero =>
    intro n acc rest h
    interval_cases n
    simp [natDecDigits]
  | succ f ih =>
    intro n acc rest h
    by_cases hn : n = 0
    · subst hn; simp [natDecDigits]
    · have hlt : n / 10 < n := Nat.div_lt_self (Nat.pos_of_ne_zero hn) (by norm_num)
      have hd := decDigitChar_facts (n % 10) (by omega)
      simp only [natDecDigits, if_neg hn, List.append_assoc, List.singleton_append,
        List.length_append, List.length_cons, List.length_nil]
      rw [ih (n / 10) acc _ (by omega)]
      simp only [parseDigitsAux, hd.1, if_pos, hd.2]
      congr 1
      have h1 : 48 + n % 10 - 48 = n % 10 := by omega
      have h2 : n / 10 * 10 + n % 10 = n := by omega
      rw [h1, pow_succ]
      calc (acc * 10 ^ (natDecDigits f (n / 10)).length + n / 10) * 10 + n % 10
          = acc * (10 ^ (natDecDigits f (n / 10)).length * 10) +
              (n / 10 * 10 + n % 10) := by ring
        _ = acc * (10 ^ (natDecDigits f (n / 10)).length * 10) + n := by rw [h2]

theorem parseDigitsAux_encodeNat (n : Nat) (rest : List Char) (h : headIsDigit rest = false) :
    parseDigitsAux (encodeNat n ++ rest) 0 = (n, rest) := by
  by_cases hn : n = 0
  · subst hn
    have h0 : parseDigitsAux ('0' :: rest) 0 = parseDigitsAux rest 0 := by
      simp [parseDigitsAux]
    simp [encodeNat, h0, parseDigitsAux_stop rest 0 h]
  · rw [encodeNat, if_neg hn, natDecDigits_chunk n n 0 rest (le_refl n),
      parseDigitsAux_stop rest _ h]
    simp

/-! ## Round-trip lemmas: values -/

theorem natDecDigits_all_digits : ∀ (fuel n : Nat), ∀ c ∈ natDecDigits fuel n,
    c.isDigit = true := by
  intro fuel
  induction fuel with
  | zero => intro n c hc; simp [natDecDigits] at hc
  | succ f ih =>
    intro n c hc
    by_cases hn : n = 0
    · simp [natDecDigits, hn] at hc
    · rw [natDecDigits, if_neg hn] at hc
      rcases List.mem_append.mp hc with h | h
      · exact ih _ _ h
      · simp at h
        subst h
        exact (decDigitChar_facts (n % 10) (by omega)).1

theorem encodeNat_shape (n : Nat) : ∃ c tail, encodeNat n = c :: tail ∧ c.isDigit = true := by
  by_cases hn : n = 0
  · subst hn; exact ⟨'0', [], rfl, by decide⟩
  · obtain ⟨m, rfl⟩ : ∃ m, n = m + 1 := ⟨n - 1, by omega⟩
    have hne : natDecDigits (m + 1) (m + 1) ≠ [] := by
      rw [natDecDigits, if_neg hn]
      simp
    obtain ⟨c, tail, h⟩ := List.exists_cons_of_ne_nil hne
    refine ⟨c, tail, by rw [encodeNat, if_neg hn, h], ?_⟩
    exact natDecDigits_all_digits (m + 1) (m + 1) c (by rw [h]; exact List.mem_cons_self c tail)

theorem isDigit_char_ne (c : Char) (h : c.isDigit = true) :
    c ≠ 'n' ∧ c ≠ 't' ∧ c ≠ 'f' ∧ c ≠ '"' ∧ c ≠ '-' ∧ c ≠ '[' ∧ c ≠ '{' := by
  refine ⟨?_, ?_, ?_, ?_, ?_, ?_, ?_⟩ <;> (rintro rfl; exact absurd h (by decide))

theorem parseVal_str (s : String) (rest : List Char) (fuel : Nat) :
    parseVal (fuel + 1) ('"' :: (escapeString s.data ++ '"' :: rest)) =
      some (.str s, rest) := by
  obtain ⟨d⟩ := s
  have h := parseString_escapeString d rest
  simp [parseVal, h]

theorem parseVal_bool (b : Bool) (rest : List Char) (fuel : Nat) :
    parseVal (fuel + 1) ((if b then ['t', 'r', 'u', 'e'] else ['f', 'a', 'l', 's', 'e']) ++ rest) =
      some (.bool b, rest) := by
  cases b <;> simp [parseVal]

theorem parseVal_nat (n : Nat) (rest : List Char) (fuel : Nat) (h : headIsDigit rest = false) :
    parseVal (fuel + 1) (encodeNat n ++ rest) = some (.num (n : Int), rest) := by
  obtain ⟨c, tail, hct, hdig⟩ := encodeNat_shape n
  have hne := isDigit_char_ne c hdig
  have hpd : parseDigitsAux (c :: (tail ++ rest)) 0 = (n, rest) := by
    rw [← List.cons_append, ← hct]
    exact parseDigitsAux_encodeNat n rest h
  rw [hct, List.cons_append]
  simp [parseVal, hne.1, hne.2.1, hne.2.2.1, hne.2.2.2.1, hne.2.2.2.2.1,
    hne.2.2.2.2.2.1, hne.2.2.2.2.2.2, hdig, hpd]

theorem parseVal_encodeTodo (t : Todo) (rest : List Char) : ∀ fuel, 5 ≤ fuel →
    parseVal fuel (encodeTodo t ++ rest) = some (todoToJson t, rest) := by
  intro fuel hf
  obtain ⟨f, rfl⟩ : ∃ f, fuel = f + 1 + 1 + 1 + 1 + 1 := ⟨fuel - 5, by omega⟩
  have hstr : ∀ (s : String) (r : List Char),
      parseVal (f + 1 + 1 + 1 + 1) ('"' :: (escapeString s.data ++ '"' :: r)) =
        some (.str s, r) := fun s r => parseVal_str s r (f + 1 + 1 + 1)
  have hbool : ∀ (b : Bool) (r : List Char),
      parseVal (f + 1 + 1 + 1 + 1)
          ((if b then ['t', 'r', 'u', 'e'] else ['f', 'a', 'l', 's', 'e']) ++ r) =
        some (.bool b, r) := fun b r => parseVal_bool b r (f + 1 + 1 + 1)
  have hnat : parseVal (f + 1 + 1 + 1 + 1) (encodeNat t.createdAt ++ ('}' :: rest)) =
      some (.num (t.createdAt : Int), '}' :: rest) :=
    parseVal_nat t.createdAt ('}' :: rest) (f + 1 + 1 + 1) rfl
  have hkid : ∀ r : List Char, parseString ('i' :: 'd' :: '"' :: r) = some (['i', 'd'], r) :=
    fun r => parseString_escapeString ['i', 'd'] r
  have hktext : ∀ r : List Char,
      parseString ('t' :: 'e' :: 'x' :: 't' :: '"' :: r) = some (['t', 'e', 'x', 't'], r) :=
    fun r => parseString_escapeString ['t', 'e', 'x', 't'] r
  have hkcomp : ∀ r : List Char,
      parseString ('c' :: 'o' :: 'm' :: 'p' :: 'l' :: 'e' :: 't' :: 'e' :: 'd' :: '"' :: r) =
        some (['c', 'o', 'm', 'p', 'l', 'e', 't', 'e', 'd'], r) :=
    fun r => parseString_escapeString ['c', 'o', 'm', 'p', 'l', 'e', 't', 'e', 'd'] r
  have hkcrea : ∀ r : List Char,
      parseString ('c' :: 'r' :: 'e' :: 'a' :: 't' :: 'e' :: 'd' :: 'A' :: 't' :: '"' :: r) =
        some (['c', 'r', 'e', 'a', 't', 'e', 'd', 'A', 't'], r) :=
    fun r => parseString_escapeString ['c', 'r', 'e', 'a', 't', 'e', 'd', 'A', 't'] r
  simp only [encodeTodo, encodeStrVal, List.cons_append, List.append_assoc, List.nil_append]
  simp [parseVal, parseMembersF, parseString_escapeString, hstr, hbool, hnat,
    hkid, hktext, hkcomp, hkcrea, todoToJson]

theorem parseElemsF_todos : ∀ (ts : List Todo) (t : Todo) (g fuel : Nat) (rest : List Char),
    ts.length + 1 ≤ g → 5 ≤ fuel →
    parseElemsF (parseVal fuel) g
      (encodeTodo t ++ (encodeTodosTail ts ++ (']' :: rest))) =
      some ((t :: ts).map todoToJson, rest) := by
  intro ts
  induction ts with
  | nil =>
    intro t g fuel rest hg hf
    obtain ⟨g1, rfl⟩ : ∃ g1, g = g1 + 1 := ⟨g - 1, by omega⟩
    have ht := parseVal_encodeTodo t (']' :: rest) fuel hf
    simp only [encodeTodosTail, List.nil_append]
    simp [parseElemsF, ht]
  | cons t2 ts2 ih =>
    intro t g fuel rest hg hf
    obtain ⟨g1, rfl⟩ : ∃ g1, g = g1 + 1 := ⟨g - 1, by omega⟩
    have ht := parseVal_encodeTodo t
      (encodeTodosTail (t2 :: ts2) ++ (']' :: rest)) fuel hf
    have hih := ih t2 g1 fuel rest (by simp at hg ⊢; omega) hf
    simp only [parseElemsF, ht]
    simp only [encodeTodosTail, List.cons_append, List.append_assoc] at ht ⊢
    simp [parseElemsF, ht, hih]

theorem encodeTodo_length (t : Todo) : 5 ≤ (encodeTodo t).length := by
  cases hc : t.completed <;>
    simp [encodeTodo, encodeStrVal, hc, List.length_append]

theorem encodeTodosTail_length (ts : List Todo) : ts.length ≤ (encodeTodosTail ts).length := by
  induction ts with
  | nil => simp [encodeTodosTail]
  | cons t ts ih =>
    have h := encodeTodo_length t
    simp only [encodeTodosTail, List.length_cons, List.length_append]
    omega

theorem parseVal_encodeTodos (ts : List Todo) : ∀ (fuel : Nat) (rest : List Char),
    ts.length + 6 ≤ fuel →
    parseVal fuel (encodeTodos ts ++ rest) = some (todosToJson ts, rest) := by
  intro fuel rest hfu
  obtain ⟨F, rfl⟩ : ∃ F, fuel = F + 1 := ⟨fuel - 1, by omega⟩
  cases ts with
  | nil => simp [encodeTodos, parseVal, todosToJson]
  | cons t ts =>
    obtain ⟨body, hbody⟩ : ∃ l, encodeTodo t = '{' :: l := ⟨_, rfl⟩
    have hrr : ∀ Y : List Char, encodeTodo t ++ Y = '{' :: (body ++ Y) := by
      intro Y; rw [hbody]; rfl
    have helems := parseElemsF_todos ts t F F rest (by simp at hfu ⊢; omega) (by omega)
    simp only [encodeTodos, List.cons_append, List.append_assoc, List.singleton_append]
    rw [hrr]
    simp [parseVal]
    rw [← hrr, helems]
    simp [todosToJson]

theorem jsonParse_save (todos : List Todo) :
    jsonParse (save todos) = some (todosToJson todos) := by
  cases todos with
  | nil => rfl
  | cons t ts =>
    have hdata : (save (t :: ts)).data = encodeTodos (t :: ts) := rfl
    have hlen : (t :: ts).length + 6 ≤ (encodeTodos (t :: ts)).length + 1 := by
      have h1 := encodeTodo_length t
      have h2 := encodeTodosTail_length ts
      simp [encodeTodos, List.length_append]
      omega
    have hp := parseVal_encodeTodos (t :: ts) ((encodeTodos (t :: ts)).length + 1) [] hlen
    rw [List.append_nil] at hp
    simp only [jsonParse, hdata, hp]

theorem jsonToTodos_todosToJson (todos : List Todo) :
    jsonToTodos (todosToJson todos) = some todos := by
  induction todos with
  | nil => rfl
  | cons t ts ih =>
    have h1 : jsonToTodo (todoToJson t) = some t := rfl
    have ih2 : jsonToTodoList (List.map todoToJson ts) = some ts := ih
    simp [todosToJson, jsonToTodos, jsonToTodoList, h1, ih2]

/-- C5: persistence round-trip.  For every collection of tasks (string id,
string text, boolean completed, integer timestamp), parsing the saved blob
succeeds and recovers exactly the JSON value of the collection, hydration
(`load`) of the saved blob yields that value, and reading the tasks back out
of it returns the original collection field-for-field — including the empty
collection, whose blob is `"[]"`. -/
theorem save_load_round_trip (todos : List Todo) :
    load (some (save todos)) = todosToJson todos ∧
    jsonParse (save todos) = some (todosToJson todos) ∧
    jsonToTodos (todosToJson todos) = some todos := by
  have hp := jsonParse_save todos
  have hne : save todos ≠ "" := by
    intro h
    have hd := congrArg String.data h
    cases todos <;> simp [save, encodeTodos] at hd
  refine ⟨?_, hp, jsonToTodos_todosToJson todos⟩
  simp [load, hne, hp]

/-- C6 counterexample: the persisted blob `"5"` is foreign JSON — valid JSON
that is not a task collection — yet `load` returns the parsed number `5`
as the state, not the empty collection: hydration does not validate. -/
theorem load_foreign_json_counterexample :
    load (some "5") = Json.num 5 ∧ Json.num 5 ≠ Json.arr [] :=
  ⟨rfl, fun h => Json.noConfusion h⟩

/-- C6 (amended): `load` is a total function (never throws); it returns the
empty collection when the storage key is missing or when the stored blob
fails to parse as JSON (including the empty string); but a blob that parses
successfully — even foreign JSON that is no task collection — is returned
as parsed, without validation. -/
theorem load_failure_spec :
    load none = Json.arr [] ∧
    (∀ s : String, jsonParse s = none → load (some s) = Json.arr []) ∧
    (∀ (s : String) (j : Json), jsonParse s = some j → load (some s) = j) := by
  refine ⟨rfl, fun s h => ?_, fun s j h => ?_⟩
  · by_cases he : s = ""
    · subst he; rfl
    · simp [load, he, h]
  · by_cases he : s = ""
    · subst he
      rw [show jsonParse "" = none from rfl] at h
      cases h
    · simp [load, he, h]

/-- Witness for the amended C6: the unparseable blob `"oops"` hydrates to
the empty collection, while the parseable foreign blob `"5"` hydrates to
the number it denotes. -/
theorem load_failure_spec_witness :
    (jsonParse "oops" = none ∧ load (some "oops") = Json.arr []) ∧
    (jsonParse "5" = some (Json.num 5) ∧ load (some "5") = Json.num 5) :=
  ⟨⟨rfl, load_failure_spec.2.1 "oops" rfl⟩,
   ⟨rfl, load_failure_spec.2.2 "5" (Json.num 5) rfl⟩⟩
